import Mathlib

/-!
Shallow embedding of the SniperFi conditional-order engine
(engine `src/unnamed/part_001`, price monitor and executor under `src/src/`).

Prices and amounts are modelled as rationals; token addresses, wallet
addresses and order ids as naturals; JS `Set` as `Finset ℕ`; JS `Map`
as a function `ℕ → Option _`.  JS truthiness on numeric fields
(`order.target_price && ...`) is modelled by `qTruthy`: an absent
(`null`/`undefined`) or zero value is falsy, everything else truthy.
-/

namespace SniperFi

/-- The four order kinds (`order_type` column). -/
inductive OrderType where
  | limit_buy
  | take_profit
  | stop_loss
  | trailing_stop
deriving DecidableEq, Repr

/-- Order lifecycle status. -/
inductive OrderStatus where
  | active
  | filled
  | cancelled
  | failed
deriving DecidableEq, Repr

/-- An order row as the engine sees it (fields used by the engine). -/
structure Order where
  id : ℕ
  wallet : ℕ
  token_address : ℕ
  order_type : OrderType
  target_price : Option ℚ
  target_multiplier : Option ℚ
  entry_price : Option ℚ
  trail_percent : Option ℚ
  peak_price : Option ℚ
  amount_sol : ℚ
  slippage : Option ℚ
  status : OrderStatus
deriving DecidableEq, Repr

/-- JS truthiness of an optional numeric field: `null`/`undefined` and `0`
are falsy, any other number is truthy. -/
def qTruthy : Option ℚ → Bool
  | none => false
  | some x => x ≠ 0

/-- Result of one `_evaluate` decision: whether the order should trigger,
the (possibly peak-updated) order, and the argument of the
`db.updatePeakPrice` write-through when one was issued. -/
structure EvalResult where
  shouldTrigger : Bool
  order : Order
  peakWritten : Option ℚ
deriving DecidableEq, Repr

/-- The decision switch of `_evaluate` (engine part_001, lines 135-181):
per order kind, decide the trigger and (for trailing stops) update the
tracked peak before the trigger check. -/
def evalOrder (o : Order) (currentPrice : ℚ) : EvalResult :=
  match o.order_type with
  | .limit_buy =>
      ⟨qTruthy o.target_price && decide (currentPrice ≤ o.target_price.getD 0), o, none⟩
  | .take_profit =>
      ⟨qTruthy o.entry_price && qTruthy o.target_multiplier &&
        decide (o.entry_price.getD 0 * o.target_multiplier.getD 0 ≤ currentPrice), o, none⟩
  | .stop_loss =>
      ⟨qTruthy o.target_price && decide (currentPrice ≤ o.target_price.getD 0), o, none⟩
  | .trailing_stop =>
      let upd : Bool := !(qTruthy o.peak_price) || decide (o.peak_price.getD 0 < currentPrice)
      let o' : Order := if upd then { o with peak_price := some currentPrice } else o
      let trig : Bool := qTruthy o'.peak_price && qTruthy o'.trail_percent &&
        decide (currentPrice ≤ o'.peak_price.getD 0 * (1 - o'.trail_percent.getD 0 / 100))
      ⟨trig, o', if upd then some currentPrice else none⟩

/-- Model of `PriceMonitor.watch` (price-monitor.js, current class, lines 197-201):
re-watching an already-watched token is a no-op. -/
def watchToken (w : Finset ℕ) (t : ℕ) : Finset ℕ :=
  if t ∈ w then w else insert t w

/-- Model of `PriceMonitor.unwatch` (price-monitor.js, lines 203-207): delete the
token from the watched set. -/
def unwatchToken (w : Finset ℕ) (t : ℕ) : Finset ℕ :=
  w.erase t

/-- The engine's in-memory state: the cached active orders (`this.orders`),
the per-order in-flight guard set (`this._executing`) and the price
monitor's watched set (`this.monitor.watching`). -/
structure EngineState where
  orders : List Order
  executing : Finset ℕ
  watching : Finset ℕ
deriving DecidableEq

/-- Model of `Engine.addOrder` (part_001, lines 63-69): skip if an order with the
same id is already cached, otherwise push it and watch its token. -/
def addOrder (st : EngineState) (o : Order) : EngineState :=
  if (st.orders.find? (fun x => x.id = o.id)).isSome then st
  else { st with orders := st.orders ++ [o],
                 watching := watchToken st.watching o.token_address }

/-- Model of `Engine.removeOrder` (part_001, lines 71-83): drop the order from the
cache and the in-flight set; if it was the last order for its token,
unwatch the token. -/
def removeOrder (st : EngineState) (orderId : ℕ) : EngineState :=
  let found := st.orders.find? (fun o => o.id = orderId)
  let orders' := st.orders.filter (fun o => o.id ≠ orderId)
  let executing' := st.executing.erase orderId
  match found with
  | some o =>
      if (orders'.filter (fun x => x.token_address = o.token_address)).isEmpty then
        { orders := orders', executing := executing',
          watching := unwatchToken st.watching o.token_address }
      else
        { orders := orders', executing := executing', watching := st.watching }
  | none => { orders := orders', executing := executing', watching := st.watching }

/-- Model of `Engine._reloadOrders` (part_001, lines 87-111): push fresh orders not
already cached (collecting their tokens), drop cached orders that are no
longer active in the store, and watch the newly seen tokens.  The stale
orders dropped here are *not* unwatched. -/
def reloadOrders (st : EngineState) (fresh : List Order) : EngineState :=
  let step := fun (acc : List Order × List ℕ) (f : Order) =>
    if (acc.1.find? (fun x => x.id = f.id)).isSome then acc
    else (acc.1 ++ [f], acc.2 ++ [f.token_address])
  let merged := fresh.foldl step (st.orders, [])
  let activeIds := fresh.map (fun o => o.id)
  let orders' := merged.1.filter (fun o => activeIds.contains o.id)
  let watching' := merged.2.foldl watchToken st.watching
  { orders := orders', executing := st.executing, watching := watching' }

/-- One `priceUpdate` delivery, `Engine._onPriceUpdate` (part_001, lines
115-125) composed with the in-flight guard and the decision part of
`_evaluate` for each relevant order: a missing or non-positive price is
dropped; otherwise each cached active order for the token is evaluated in
place (peak updates recorded in the book) and a triggering order enters
the in-flight set.  Returns the new state and the ids whose execution
started on this tick. -/
def processTick (st : EngineState) (token : ℕ) (price : Option ℚ) :
    EngineState × List ℕ :=
  match price with
  | none => (st, [])
  | some p =>
      if p ≤ 0 then (st, [])
      else
        let step := fun (acc : List Order × Finset ℕ × List ℕ) (o : Order) =>
          if o.token_address = token ∧ o.status = .active then
            if o.id ∈ acc.2.1 then (acc.1 ++ [o], acc.2.1, acc.2.2)
            else
              let r := evalOrder o p
              if r.shouldTrigger then
                (acc.1 ++ [r.order], insert o.id acc.2.1, acc.2.2 ++ [o.id])
              else (acc.1 ++ [r.order], acc.2.1, acc.2.2)
          else (acc.1 ++ [o], acc.2.1, acc.2.2)
        let res := st.orders.foldl step ([], st.executing, [])
        ({ orders := res.1, executing := res.2.1, watching := st.watching }, res.2.2)

/-- The engine's initial state: empty book, nothing in flight, nothing
watched. -/
def initState : EngineState := ⟨[], ∅, ∅⟩

/-- States reachable through the engine's book-mutating entry points:
`addOrder` (front door), `removeOrder` (cancel / terminal outcome) and
`_reloadOrders` (periodic reconciliation, with an arbitrary fresh list
delivered by the store). -/
inductive Reachable : EngineState → Prop where
  | init : Reachable initState
  | add (st : EngineState) (o : Order) : Reachable st → Reachable (addOrder st o)
  | remove (st : EngineState) (i : ℕ) : Reachable st → Reachable (removeOrder st i)
  | reload (st : EngineState) (fresh : List Order) :
      Reachable st → Reachable (reloadOrders st fresh)

/-- The watched-iff-referenced invariant the spec asserts about the feed's
watched set. -/
def watchInvariant (st : EngineState) : Prop :=
  ∀ t : ℕ, t ∈ st.watching ↔ ∃ o ∈ st.orders, o.token_address = t

/-- No two cached orders share an id. -/
def idsNodup (st : EngineState) : Prop :=
  (st.orders.map (fun o => o.id)).Nodup

/-- States reachable through the front-door entry points only (`addOrder`
and `removeOrder`), without the periodic reconciliation pass. -/
inductive ReachableNoReload : EngineState → Prop where
  | init : ReachableNoReload initState
  | add (st : EngineState) (o : Order) :
      ReachableNoReload st → ReachableNoReload (addOrder st o)
  | remove (st : EngineState) (i : ℕ) :
      ReachableNoReload st → ReachableNoReload (removeOrder st i)

/-! ### Dispatcher in-flight guard (part_001, `_evaluate` line 130 and
`_execute` lines 192, 254, 265, 272)

A single order's execution lifecycle, with price ticks and the terminal
settlement of a running execution as separate events so that "in flight"
is observable between them.  `running` counts the `_execute` calls
currently in progress for the order. -/

/-- Per-order dispatcher state: the engine's `_executing` guard set and a
ghost count of executions currently in flight for the order. -/
structure DispatchState where
  executing : Finset ℕ
  running : ℕ
deriving DecidableEq

/-- Events seen by the dispatcher for one order: a price tick for its
token, or the terminal outcome (filled or failed) of the running
execution. -/
inductive DispatchEv where
  | tick (p : ℚ)
  | settle
deriving DecidableEq

/-- One dispatcher step for order `o`.  A tick replays `_evaluate`: return
early if the id is in the guard set, otherwise decide the trigger and, on
a trigger, enter `_execute` (which adds the id to the guard before its
first build attempt).  `settle` is the terminal outcome, which removes
the order (and hence the id from the guard) and ends the running
execution. -/
def dispatchStep (o : Order) (s : DispatchState) : DispatchEv → DispatchState
  | .tick p =>
      if o.id ∈ s.executing then s
      else if (evalOrder o p).shouldTrigger then
        { executing := insert o.id s.executing, running := s.running + 1 }
      else s
  | .settle =>
      if o.id ∈ s.executing then
        { executing := s.executing.erase o.id, running := s.running - 1 }
      else s

/-- Folding a whole event trace for order `o` from a given state. -/
def runDispatch (o : Order) (s : DispatchState) (evs : List DispatchEv) : DispatchState :=
  evs.foldl (dispatchStep o) s

/-! ### Execution retry loop (part_001, `_execute` lines 191-273)

The loop is driven by an environment: the owner's live token balance as
the RPC reports it, and the outcome of the k-th build call against the
swap-building API. -/

/-- Outcome of one quote/swap build call. -/
inductive BuildOutcome where
  | ok (outSol feeSol : ℚ)
  | err (msg : String)
deriving DecidableEq, Repr

/-- The terminal write `_execute` makes to the persistent store. -/
inductive DbWrite where
  | filled (fillPrice : ℚ)
  | failedWith (reason : String)
deriving DecidableEq, Repr

/-- Observable trace of one `_execute` call: how many build calls were
made, the token amount passed to each `buildSell`, the waits between
consecutive attempts (ms), the terminal store write, and whether the
order was removed from the active set. -/
structure ExecResult where
  buildAttempts : ℕ
  sellAmounts : List ℤ
  delays : List ℕ
  dbWrite : DbWrite
  removed : Bool
deriving DecidableEq, Repr

/-- The sell-path test: `_execute` branches on whether the kind is `limit_buy`; every other
kind takes the sell path. -/
def sellKind (o : Order) : Bool :=
  o.order_type ≠ OrderType.limit_buy

/-- The engine's retry bound (`MAX_RETRIES`, part_001 line 193). -/
def MAX_RETRIES : ℕ := 3

/-- The body of `_execute`'s retry loop, at attempt number `attempt` with
`rem` further attempts allowed after this one.  On the sell path the live
balance is resolved first: a non-positive balance is terminal
(`failOrder(id, 'no_token_balance')` + `removeOrder`) with no build call.
A successful build fills and removes the order.  A failed build on the
last attempt is terminal (`failOrder(id, e.message)` + `removeOrder`);
otherwise the loop waits `1500 * attempt` ms and retries. -/
def execLoop (o : Order) (balance : ℤ) (build : ℕ → BuildOutcome)
    (currentPrice : ℚ) : ℕ → ℕ → ExecResult
  | _, 0 => ⟨0, [], [], .failedWith "", false⟩
  | attempt, rem + 1 =>
      if sellKind o ∧ balance ≤ 0 then
        ⟨0, [], [], .failedWith "no_token_balance", true⟩
      else
        let amts : List ℤ := if sellKind o then [balance] else []
        match build attempt with
        | .ok _ _ => ⟨1, amts, [], .filled currentPrice, true⟩
        | .err m =>
            if rem = 0 then ⟨1, amts, [], .failedWith m, true⟩
            else
              let r := execLoop o balance build currentPrice (attempt + 1) rem
              ⟨r.buildAttempts + 1, amts ++ r.sellAmounts,
               1500 * attempt :: r.delays, r.dbWrite, r.removed⟩

/-- Model of `_execute(order, currentPrice)`: run the retry loop from attempt 1
with `MAX_RETRIES` attempts allowed. -/
def executeOrder (o : Order) (balance : ℤ) (build : ℕ → BuildOutcome)
    (currentPrice : ℚ) : ExecResult :=
  execLoop o balance build currentPrice 1 MAX_RETRIES

/-! ### Executor adapter (src/src/executor.js)

The fee-relevant observable behaviour of `getQuote`, `buildSwapTransaction`,
`buildBuy` and `buildSell`: which parameters are put on the outbound quote
and swap-build requests, and what the returned swap descriptor reports. -/

/-- The constant `PLATFORM_FEE_BPS` (executor.js line 6). -/
def PLATFORM_FEE_BPS : ℕ := 50

/-- The constant `LAMPORTS` (executor.js line 7). -/
def LAMPORTS : ℚ := 1000000000

/-- JS `x || d` on an optional number: absent or zero falls back to the
default. -/
def jsOr (v : Option ℚ) (d : ℚ) : ℚ :=
  match v with
  | none => d
  | some x => if x = 0 then d else x

/-- The parameters `getQuote` (executor.js lines 19-32) sends to the quote
API; `platformFeeBps` is attached only when a fee wallet is configured. -/
structure QuoteRequest where
  inputMint : ℕ
  outputMint : ℕ
  amount : ℤ
  slippageBps : ℤ
  platformFeeBps : Option ℕ
deriving DecidableEq, Repr

/-- The body `buildSwapTransaction` (executor.js lines 50-61) sends to the
swap-build API; `feeAccount` is attached only when a fee wallet is
configured. -/
structure SwapRequest where
  userPublicKey : ℕ
  feeAccount : Option ℕ
deriving DecidableEq, Repr

/-- A built swap as returned to the engine: the two outbound requests that
were issued and the descriptor fields the engine consumes. -/
structure SwapBuild where
  quoteReq : QuoteRequest
  swapReq : SwapRequest
  inAmount : ℤ
  outAmount : ℤ
  outSol : Option ℚ
  feeSol : ℚ
deriving DecidableEq, Repr

/-- The `getQuote` request construction (executor.js lines 19-32). -/
def mkQuoteRequest (feeWallet : Option ℕ) (inputMint outputMint : ℕ)
    (amount : ℚ) (slippageBps : ℤ) : QuoteRequest :=
  { inputMint := inputMint
    outputMint := outputMint
    amount := ⌊amount⌋
    slippageBps := slippageBps
    platformFeeBps :=
      match feeWallet with
      | some _ => some PLATFORM_FEE_BPS
      | none => none }

/-- The `buildSwapTransaction` body construction (executor.js lines 50-61). -/
def mkSwapRequest (feeWallet : Option ℕ) (userPublicKey : ℕ) : SwapRequest :=
  { userPublicKey := userPublicKey, feeAccount := feeWallet }

/-- Model of `buildBuy` (executor.js lines 85-117): SOL → token.  `quoteOutAmount`
is the `outAmount` the external quote API returned.  The descriptor's
`feeSol` is `solAmount * (PLATFORM_FEE_BPS / 10000)`, computed whether or
not a fee wallet is configured. -/
def buildBuy (feeWallet : Option ℕ) (SOL_MINT tokenMint : ℕ)
    (solAmount : ℚ) (slippage : Option ℚ) (walletPubkey : ℕ)
    (quoteOutAmount : ℤ) : SwapBuild :=
  let lamports : ℤ := ⌊solAmount * LAMPORTS⌋
  let slippageBps : ℤ := ⌊jsOr slippage 5 * 100⌋
  { quoteReq := mkQuoteRequest feeWallet SOL_MINT tokenMint (lamports : ℚ) slippageBps
    swapReq := mkSwapRequest feeWallet walletPubkey
    inAmount := lamports
    outAmount := quoteOutAmount
    outSol := none
    feeSol := solAmount * ((PLATFORM_FEE_BPS : ℚ) / 10000) }

/-- Model of `buildSell` (executor.js lines 121-153): token → SOL.
`quoteInAmount`/`quoteOutAmount` are what the external quote API returned.
The descriptor's `feeSol` is `outSol * (PLATFORM_FEE_BPS / 10000)`,
computed whether or not a fee wallet is configured. -/
def buildSell (feeWallet : Option ℕ) (SOL_MINT tokenMint : ℕ)
    (tokenAmount : ℤ) (slippage : Option ℚ) (walletPubkey : ℕ)
    (quoteInAmount quoteOutAmount : ℤ) : SwapBuild :=
  let slippageBps : ℤ := ⌊jsOr slippage 5 * 100⌋
  let outSol : ℚ := (quoteOutAmount : ℚ) / LAMPORTS
  { quoteReq := mkQuoteRequest feeWallet tokenMint SOL_MINT (tokenAmount : ℚ) slippageBps
    swapReq := mkSwapRequest feeWallet walletPubkey
    inAmount := quoteInAmount
    outAmount := quoteOutAmount
    outSol := some outSol
    feeSol := outSol * ((PLATFORM_FEE_BPS : ℚ) / 10000) }

/-! ### Batched price poll (price-monitor.js, current class, `_poll`
lines 235-307)

One batch iteration of `_poll`: the fetch outcome, the per-entry price
updates and change events, and the trailing "not indexed" marking pass. -/

/-- One stored price observation (`this.prices` entry). -/
structure Obs where
  price : Option ℚ
  symbol : Option ℕ
  updatedAt : ℕ
  error : Option String
deriving DecidableEq, Repr

/-- One entry of the price API's `data` object. -/
structure PriceInfo where
  price : ℚ
  mintSymbol : Option ℕ
deriving DecidableEq, Repr

/-- A `priceUpdate` event emitted by the poll. -/
structure PollEvent where
  token : ℕ
  price : ℚ
  oldPrice : Option ℚ
deriving DecidableEq, Repr

/-- The stored price map (`this.prices`). -/
def PricesMap : Type := ℕ → Option Obs

/-- Point update of the stored price map (`this.prices.set`). -/
def setObs (ps : PricesMap) (a : ℕ) (o : Obs) : PricesMap :=
  fun x => if x = a then some o else ps x

/-- Outcome of the batch fetch as `_poll` distinguishes it: a thrown
fetch/parse error (caught, batch skipped), a non-OK HTTP status
(`continue`), a JSON body without `data` (`continue`), or a `data` object
with its entries. -/
inductive FetchResult where
  | fetchError
  | notOk
  | noData
  | withData (entries : List (ℕ × PriceInfo))

/-- Phase 1 of a `_poll` batch body (lines 257-288): for each entry of
`data`, overwrite the stored observation with the fresh price (clearing
any error marker) and emit a `priceUpdate` when the price changed or when
this is the first observation for the token. -/
def pollUpdateStep (now : ℕ) (acc : PricesMap × List PollEvent)
    (e : ℕ × PriceInfo) : PricesMap × List PollEvent :=
  let oldPrice : Option ℚ :=
    match acc.1 e.1 with
    | some o => o.price
    | none => none
  let ps' := setObs acc.1 e.1
    { price := some e.2.price, symbol := e.2.mintSymbol,
      updatedAt := now, error := none }
  let evs' :=
    match oldPrice with
    | some op =>
        if op ≠ e.2.price then acc.2 ++ [⟨e.1, e.2.price, some op⟩]
        else acc.2
    | none => acc.2 ++ [⟨e.1, e.2.price, none⟩]
  (ps', evs')

/-- Phase 2 of a `_poll` batch body (lines 291-301): a batch token with no
`data` entry *and no stored observation at all* gets a `not_indexed`
marker observation; anything already stored is left as it is. -/
def pollMarkStep (now : ℕ) (entries : List (ℕ × PriceInfo))
    (ps : PricesMap) (addr : ℕ) : PricesMap :=
  if (entries.find? (fun e => e.1 = addr)).isNone ∧ (ps addr).isNone then
    setObs ps addr
      { price := none, symbol := none, updatedAt := now, error := some "not_indexed" }
  else ps

/-- One batch iteration of `_poll` (lines 241-306): on any fetch problem
the batch is skipped without touching the stored map and without raising;
on data, run the update phase then the not-indexed marking phase. -/
def pollBatch (ps : PricesMap) (batch : List ℕ) (resp : FetchResult)
    (now : ℕ) : PricesMap × List PollEvent :=
  match resp with
  | .fetchError => (ps, [])
  | .notOk => (ps, [])
  | .noData => (ps, [])
  | .withData entries =>
      let upd := entries.foldl (pollUpdateStep now) (ps, [])
      (batch.foldl (pollMarkStep now entries) upd.1, upd.2)

/-! ### Concrete instances used by witnesses and counterexamples -/

/-- A limit-buy order at target 0.01 on token 100 (the spec's scenario). -/
def exLimitOrder : Order :=
  ⟨1, 10, 100, .limit_buy, some (1/100), none, none, none, none, 1, some 1, .active⟩

/-- A trailing-stop order with `trail_percent = 15` on token 100. -/
def exTrailOrder : Order :=
  ⟨2, 10, 100, .trailing_stop, none, none, none, some 15, none, 1, some 1, .active⟩

/-- A stop-loss (sell-kind) order on token 100. -/
def exStopOrder : Order :=
  ⟨3, 10, 100, .stop_loss, some (1/100), none, none, none, none, 1, some 1, .active⟩

/-- A build environment in which every attempt fails, the k-th attempt
with the decimal rendering of k as its error message. -/
def exBuildFail : ℕ → BuildOutcome := fun k => .err (toString k)

/-- An engine state holding just the limit-buy order. -/
def exEngineState : EngineState := ⟨[exLimitOrder], ∅, {100}⟩

/-- The reachable state of the reconciliation counterexample: add the
limit-buy order, then reload against a store that no longer lists it. -/
def exReloadState : EngineState := reloadOrders (addOrder initState exLimitOrder) []

/-- A stored price map holding one prior observation for token 100. -/
def exStalePrices : PricesMap := setObs (fun _ => none) 100 ⟨some 5, none, 0, none⟩

/-- A poll response carrying data for token 200 only. -/
def exPollResp : FetchResult := .withData [(200, ⟨7, none⟩)]

/-! ## Theorems -/

/-- C1: for an active `limit_buy` or `stop_loss` order with a positive
`target_price` and a positive observed price, `_evaluate` decides to
trigger iff the price is at most the target; equality at the boundary
triggers. -/
theorem limit_and_stop_trigger_iff (o : Order) (p t : ℚ)
    (hkind : o.order_type = OrderType.limit_buy ∨ o.order_type = OrderType.stop_loss)
    (hstatus : o.status = OrderStatus.active)
    (ht : o.target_price = some t) (htpos : 0 < t) (hp : 0 < p) :
    (evalOrder o p).shouldTrigger = true ↔ p ≤ t := by
  rcases hkind with h | h <;>
    simp [evalOrder, h, ht, qTruthy, htpos.ne']

/-- C1 witness: the order at target 0.01 triggers at price exactly 0.01. -/
theorem limit_and_stop_trigger_iff_witness :
    (evalOrder exLimitOrder (1/100)).shouldTrigger = true ↔ (1/100 : ℚ) ≤ 1/100 :=
  limit_and_stop_trigger_iff exLimitOrder (1/100) (1/100) (Or.inl rfl) rfl rfl
    (by norm_num) (by norm_num)

/-- C9: `addOrder` with an id already cached leaves the engine state
unchanged, so any subsequent price tick processes exactly what it would
have processed before the duplicate add. -/
theorem addOrder_idempotent (st : EngineState) (o : Order)
    (h : (st.orders.find? (fun x => x.id = o.id)).isSome = true) :
    addOrder st o = st ∧
    ∀ (token : ℕ) (p : Option ℚ),
      processTick (addOrder st o) token p = processTick st token p := by
  have h1 : addOrder st o = st := by simp [addOrder, h]
  exact ⟨h1, fun token p => by rw [h1]⟩

/-- C9 witness: re-adding the cached limit order is a no-op. -/
theorem addOrder_idempotent_witness :
    addOrder exEngineState exLimitOrder = exEngineState :=
  (addOrder_idempotent exEngineState exLimitOrder (by decide)).1

/-- C10: a price update with a missing, zero or negative price is dropped
by `_onPriceUpdate` before any order is considered: the state is
untouched (no peak update, no execution start) and nothing triggers. -/
theorem skip_nonpositive_price (st : EngineState) (token : ℕ) (price : Option ℚ)
    (h : price = none ∨ ∃ p, price = some p ∧ p ≤ 0) :
    processTick st token price = (st, []) := by
  rcases h with h | ⟨p, hp, hle⟩
  · subst h; rfl
  · subst hp; simp [processTick, hle]

/-- C10 witness: price 0 on a book holding a limit-buy at target 0.01
(where `0 ≤ target` would otherwise hold) evaluates nothing. -/
theorem skip_nonpositive_price_witness :
    processTick exEngineState 100 (some 0) = (exEngineState, []) :=
  skip_nonpositive_price exEngineState 100 (some 0) (Or.inr ⟨0, rfl, le_refl 0⟩)

/-- C7 counterexample: with no fee recipient configured, no fee parameter
is put on the quote or swap request, yet the returned descriptor still
reports a non-zero platform fee (`feeSol = solAmount * 50/10000`). -/
theorem fee_reported_without_recipient_cex :
    (buildBuy none 0 100 1 (some 1) 42 1000).quoteReq.platformFeeBps = none ∧
    (buildBuy none 0 100 1 (some 1) 42 1000).swapReq.feeAccount = none ∧
    (buildBuy none 0 100 1 (some 1) 42 1000).feeSol = 1/200 ∧
    ¬ (buildBuy none 0 100 1 (some 1) 42 1000).feeSol = 0 := by
  refine ⟨rfl, rfl, by norm_num [buildBuy, PLATFORM_FEE_BPS], by norm_num [buildBuy, PLATFORM_FEE_BPS]⟩

/-- C7 (amended): with no fee recipient, no fee parameter is sent on the
quote or swap-build requests; with a recipient, the fixed constant rate
(`PLATFORM_FEE_BPS`) and that recipient are sent; the descriptor's
reported `feeSol` is always computed at the constant rate, whether or not
a recipient is configured. -/
theorem platform_fee_configuration (feeWallet : Option ℕ) (solMint tokenMint : ℕ)
    (solAmount : ℚ) (slippage : Option ℚ) (wallet : ℕ)
    (tokenAmount quoteIn quoteOut : ℤ) :
    (feeWallet = none →
      (buildBuy feeWallet solMint tokenMint solAmount slippage wallet quoteOut).quoteReq.platformFeeBps = none ∧
      (buildBuy feeWallet solMint tokenMint solAmount slippage wallet quoteOut).swapReq.feeAccount = none ∧
      (buildSell feeWallet solMint tokenMint tokenAmount slippage wallet quoteIn quoteOut).quoteReq.platformFeeBps = none ∧
      (buildSell feeWallet solMint tokenMint tokenAmount slippage wallet quoteIn quoteOut).swapReq.feeAccount = none) ∧
    (∀ w, feeWallet = some w →
      (buildBuy feeWallet solMint tokenMint solAmount slippage wallet quoteOut).quoteReq.platformFeeBps = some PLATFORM_FEE_BPS ∧
      (buildBuy feeWallet solMint tokenMint solAmount slippage wallet quoteOut).swapReq.feeAccount = some w ∧
      (buildSell feeWallet solMint tokenMint tokenAmount slippage wallet quoteIn quoteOut).quoteReq.platformFeeBps = some PLATFORM_FEE_BPS ∧
      (buildSell feeWallet solMint tokenMint tokenAmount slippage wallet quoteIn quoteOut).swapReq.feeAccount = some w) ∧
    (buildBuy feeWallet solMint tokenMint solAmount slippage wallet quoteOut).feeSol =
      solAmount * ((PLATFORM_FEE_BPS : ℚ) / 10000) ∧
    (buildSell feeWallet solMint tokenMint tokenAmount slippage wallet quoteIn quoteOut).feeSol =
      ((quoteOut : ℚ) / LAMPORTS) * ((PLATFORM_FEE_BPS : ℚ) / 10000) := by
  refine ⟨?_, ?_, rfl, rfl⟩
  · rintro rfl; exact ⟨rfl, rfl, rfl, rfl⟩
  · rintro w rfl; exact ⟨rfl, rfl, rfl, rfl⟩

/-- C7 witness: with recipient 9 configured, both requests carry the
constant fee rate and the recipient. -/
theorem platform_fee_configuration_witness :
    (buildBuy (some 9) 0 100 1 (some 1) 42 1000).quoteReq.platformFeeBps = some PLATFORM_FEE_BPS ∧
    (buildBuy (some 9) 0 100 1 (some 1) 42 1000).swapReq.feeAccount = some 9 ∧
    (buildSell (some 9) 0 100 500 (some 1) 42 400 1000).quoteReq.platformFeeBps = some PLATFORM_FEE_BPS ∧
    (buildSell (some 9) 0 100 500 (some 1) 42 400 1000).swapReq.feeAccount = some 9 :=
  (platform_fee_configuration (some 9) 0 100 1 (some 1) 42 500 400 1000).2.1 9 rfl

/-- The in-flight count always mirrors the guard set: starting from a
state where it does, it still does after any event trace. -/
lemma dispatch_running_inv (o : Order) (evs : List DispatchEv) :
    ∀ s : DispatchState, s.running = (if o.id ∈ s.executing then 1 else 0) →
      (runDispatch o s evs).running =
        (if o.id ∈ (runDispatch o s evs).executing then 1 else 0) := by
  induction evs with
  | nil => intro s h; exact h
  | cons e rest ih =>
      intro s h
      have hstep : (dispatchStep o s e).running =
          (if o.id ∈ (dispatchStep o s e).executing then 1 else 0) := by
        cases e with
        | tick p =>
            by_cases hm : o.id ∈ s.executing
            · simp [dispatchStep, hm, h]
            · by_cases htr : (evalOrder o p).shouldTrigger = true
              · simp [dispatchStep, hm, htr, h]
              · simp [dispatchStep, hm, htr, h]
        | settle =>
            by_cases hm : o.id ∈ s.executing
            · simp [dispatchStep, hm, h]
            · simp [dispatchStep, hm, h]
      exact ih (dispatchStep o s e) hstep

/-- C3: from the initial state, after any trace of price ticks and
settlements, at most one execution is in flight for the order, the
in-flight count is exactly the guard bit, and a tick arriving while the
guard is set leaves the dispatcher state untouched (it can never start a
second execution). -/
theorem at_most_one_execution_in_flight (o : Order) (evs : List DispatchEv) :
    (runDispatch o ⟨∅, 0⟩ evs).running ≤ 1 ∧
    (runDispatch o ⟨∅, 0⟩ evs).running =
      (if o.id ∈ (runDispatch o ⟨∅, 0⟩ evs).executing then 1 else 0) ∧
    (∀ (s : DispatchState) (p : ℚ), o.id ∈ s.executing →
      dispatchStep o s (.tick p) = s) := by
  have h := dispatch_running_inv o evs ⟨∅, 0⟩ (by simp)
  refine ⟨?_, h, ?_⟩
  · rw [h]; split <;> simp
  · intro s p hm; simp [dispatchStep, hm]

/-- C3 witness: two triggering ticks and a settlement on the limit-buy
order keep at most one execution in flight, and a tick on a guarded
state is a no-op. -/
theorem at_most_one_execution_in_flight_witness :
    (runDispatch exLimitOrder ⟨∅, 0⟩ [.tick (1/100), .tick (1/100), .settle]).running ≤ 1 ∧
    dispatchStep exLimitOrder ⟨{1}, 1⟩ (.tick (1/100)) = ⟨{1}, 1⟩ :=
  ⟨(at_most_one_execution_in_flight exLimitOrder [.tick (1/100), .tick (1/100), .settle]).1,
   (at_most_one_execution_in_flight exLimitOrder []).2.2 ⟨{1}, 1⟩ (1/100) (by decide)⟩

/-- Definitional unfolding of one retry-loop iteration. -/
lemma execLoop_succ (o : Order) (balance : ℤ) (build : ℕ → BuildOutcome) (p : ℚ)
    (attempt rem : ℕ) :
    execLoop o balance build p attempt (rem + 1) =
      if sellKind o = true ∧ balance ≤ 0 then
        ⟨0, [], [], .failedWith "no_token_balance", true⟩
      else
        let amts : List ℤ := if sellKind o then [balance] else []
        match build attempt with
        | .ok _ _ => ⟨1, amts, [], .filled p, true⟩
        | .err m =>
            if rem = 0 then ⟨1, amts, [], .failedWith m, true⟩
            else
              let r := execLoop o balance build p (attempt + 1) rem
              ⟨r.buildAttempts + 1, amts ++ r.sellAmounts,
               1500 * attempt :: r.delays, r.dbWrite, r.removed⟩ := rfl

/-- On the sell path with a positive balance, every build attempt of the
retry loop passes exactly the resolved live balance to `buildSell`, and
at least one build attempt is made. -/
lemma execLoop_sell_replicate (o : Order) (balance : ℤ) (build : ℕ → BuildOutcome)
    (p : ℚ) (hsell : sellKind o = true) (hpos : ¬ balance ≤ 0) :
    ∀ rem attempt,
      (execLoop o balance build p attempt (rem + 1)).sellAmounts =
        List.replicate (execLoop o balance build p attempt (rem + 1)).buildAttempts balance ∧
      1 ≤ (execLoop o balance build p attempt (rem + 1)).buildAttempts := by
  intro rem
  induction rem with
  | zero =>
      intro attempt
      cases hb : build attempt with
      | ok a b => rw [execLoop_succ]; simp [hsell, hpos, hb]
      | err m => rw [execLoop_succ]; simp [hsell, hpos, hb]
  | succ r ih =>
      intro attempt
      cases hb : build attempt with
      | ok a b => rw [execLoop_succ]; simp [hsell, hpos, hb]
      | err m =>
          have h := ih (attempt + 1)
          refine ⟨?_, ?_⟩
          · rw [execLoop_succ]
            simp [hsell, hpos, hb, List.replicate_succ, h.1]
          · rw [execLoop_succ]
            simp only [hsell, hpos, hb]
            simp [hsell, hpos]

/-- C5: for a sell-kind order (`take_profit`, `stop_loss`,
`trailing_stop`), a zero resolved balance is terminal with reason
`no_token_balance`, zero build attempts and removal from the active set;
a positive resolved balance is what every build request sells — the
amount is the live balance, never a stored field. -/
theorem sell_resolves_live_balance (o : Order) (balance : ℤ)
    (build : ℕ → BuildOutcome) (p : ℚ)
    (hkind : o.order_type = OrderType.take_profit ∨
      o.order_type = OrderType.stop_loss ∨ o.order_type = OrderType.trailing_stop) :
    (balance = 0 →
      executeOrder o balance build p =
        ⟨0, [], [], .failedWith "no_token_balance", true⟩) ∧
    (0 < balance →
      (executeOrder o balance build p).sellAmounts =
        List.replicate (executeOrder o balance build p).buildAttempts balance ∧
      1 ≤ (executeOrder o balance build p).buildAttempts) := by
  have hsell : sellKind o = true := by
    rcases hkind with h | h | h <;> simp [sellKind, h]
  constructor
  · rintro rfl
    show execLoop o 0 build p 1 (2 + 1) = _
    simp [execLoop, hsell]
  · intro hpos
    have h := execLoop_sell_replicate o balance build p hsell (by omega) 2 1
    exact h

/-- C5 witness: the stop-loss order at zero balance fails terminally with
no build attempt; at balance 7 every build attempt sells exactly 7. -/
theorem sell_resolves_live_balance_witness :
    executeOrder exStopOrder 0 exBuildFail (1/100) =
      ⟨0, [], [], .failedWith "no_token_balance", true⟩ ∧
    (executeOrder exStopOrder 7 exBuildFail (1/100)).sellAmounts =
      List.replicate (executeOrder exStopOrder 7 exBuildFail (1/100)).buildAttempts 7 :=
  ⟨(sell_resolves_live_balance exStopOrder 0 exBuildFail (1/100) (Or.inr (Or.inl rfl))).1 rfl,
   ((sell_resolves_live_balance exStopOrder 7 exBuildFail (1/100) (Or.inr (Or.inl rfl))).2
      (by norm_num)).1⟩

/-- The book after `removeOrder` is always filtered of the removed id,
whatever the unwatch branch taken. -/
lemma removeOrder_orders (st : EngineState) (i : ℕ) :
    (removeOrder st i).orders = st.orders.filter (fun o => o.id ≠ i) := by
  unfold removeOrder
  rcases h : st.orders.find? (fun o => o.id = i) with _ | o
  · simp [h]
  · simp only [h]
    split <;> rfl

/-- C4: if every build attempt fails (and the order is a buy, or the
balance is positive so the sell path reaches the build), `_execute`
makes exactly 3 attempts, waits linearly growing delays of `1500·k` ms
between consecutive attempts, terminally records the last error's
message, and removes the order from the active set — after which no book
holds it. -/
theorem retry_bound_three (o : Order) (balance : ℤ) (build : ℕ → BuildOutcome)
    (p : ℚ) (msgs : ℕ → String)
    (hfail : ∀ k, build k = .err (msgs k))
    (hok : o.order_type = OrderType.limit_buy ∨ 0 < balance) :
    executeOrder o balance build p =
      ⟨3, if sellKind o then [balance, balance, balance] else [],
        [1500 * 1, 1500 * 2], .failedWith (msgs 3), true⟩ ∧
    (∀ st : EngineState, o.id ∉ ((removeOrder st o.id).orders.map (fun x => x.id))) := by
  constructor
  · have hg : ¬ (sellKind o = true ∧ balance ≤ 0) := by
      rcases hok with h | h
      · simp [sellKind, h]
      · intro hc; omega
    show execLoop o balance build p 1 (2 + 1) = _
    by_cases hs : sellKind o = true
    · have hb : ¬ balance ≤ 0 := fun hb => hg ⟨hs, hb⟩
      simp [execLoop, hs, hb, hfail 1, hfail 2, hfail 3]
    · simp [execLoop, hs, hfail 1, hfail 2, hfail 3]
  · intro st
    rw [removeOrder_orders]
    simp [List.mem_filter]

/-- C4 witness: the limit-buy order under an always-failing build makes
3 attempts, waits 1500 then 3000 ms, and fails with the third error. -/
theorem retry_bound_three_witness :
    executeOrder exLimitOrder 0 exBuildFail (1/100) =
      ⟨3, [], [1500 * 1, 1500 * 2], .failedWith (toString 3), true⟩ :=
  (retry_bound_three exLimitOrder 0 exBuildFail (1/100) (fun k => toString k)
    (fun _ => rfl) (Or.inl rfl)).1

/-- A falsy optional numeric field reads as 0. -/
lemma qTruthy_eq_false {v : Option ℚ} (h : qTruthy v = false) : v.getD 0 = 0 := by
  cases v with
  | none => rfl
  | some x => simpa [qTruthy] using h

/-- The trailing-stop branch of `_evaluate`, written out. -/
lemma evalOrder_trailing (o : Order) (p : ℚ)
    (h : o.order_type = OrderType.trailing_stop) :
    evalOrder o p =
      ⟨qTruthy ((if (!(qTruthy o.peak_price) || decide (o.peak_price.getD 0 < p)) = true
          then { o with peak_price := some p } else o) : Order).peak_price &&
        qTruthy ((if (!(qTruthy o.peak_price) || decide (o.peak_price.getD 0 < p)) = true
          then { o with peak_price := some p } else o) : Order).trail_percent &&
        decide (p ≤ ((if (!(qTruthy o.peak_price) || decide (o.peak_price.getD 0 < p)) = true
          then { o with peak_price := some p } else o) : Order).peak_price.getD 0 *
            (1 - ((if (!(qTruthy o.peak_price) || decide (o.peak_price.getD 0 < p)) = true
              then { o with peak_price := some p } else o) : Order).trail_percent.getD 0 / 100)),
       (if (!(qTruthy o.peak_price) || decide (o.peak_price.getD 0 < p)) = true
          then { o with peak_price := some p } else o),
       (if (!(qTruthy o.peak_price) || decide (o.peak_price.getD 0 < p)) = true
          then some p else none)⟩ := by
  simp only [evalOrder, h]

/-- The peak tracked by a trailing-stop evaluation never decreases on a
positive price observation. -/
lemma trailing_peak_mono (o : Order) (p : ℚ)
    (hk : o.order_type = OrderType.trailing_stop) (hp : 0 < p) :
    o.peak_price.getD 0 ≤ (evalOrder o p).order.peak_price.getD 0 := by
  rw [evalOrder_trailing o p hk]
  by_cases hu : (!(qTruthy o.peak_price) || decide (o.peak_price.getD 0 < p)) = true
  · simp only [hu, if_true]
    rcases Bool.or_eq_true_iff.mp hu with h | h
    · have h0 : qTruthy o.peak_price = false := by
        cases hq : qTruthy o.peak_price <;> simp [hq] at h ⊢
      simp [qTruthy_eq_false h0, hp.le]
    · have := of_decide_eq_true h
      simp [this.le]
  · simp [hu]

/-- Evaluation never changes an order's kind or trail percentage. -/
lemma evalOrder_preserves (o : Order) (p : ℚ) :
    (evalOrder o p).order.order_type = o.order_type ∧
    (evalOrder o p).order.trail_percent = o.trail_percent := by
  cases h : o.order_type
  case trailing_stop =>
    rw [evalOrder_trailing o p h]
    constructor <;> (split <;> simp [h])
  all_goals simp [evalOrder, h]

/-- One trailing-stop tick: the peak is overwritten by a new high, never
decreases, the trigger compares the price against the same-tick peak, and
a tick that sets a new high cannot itself trigger. -/
lemma trailing_tick (o : Order) (p tr : ℚ)
    (hk : o.order_type = OrderType.trailing_stop)
    (htr : o.trail_percent = some tr) (htrpos : 0 < tr) (hp : 0 < p) :
    (o.peak_price.getD 0 < p → (evalOrder o p).order.peak_price = some p) ∧
    o.peak_price.getD 0 ≤ (evalOrder o p).order.peak_price.getD 0 ∧
    ((evalOrder o p).shouldTrigger = true ↔
      p ≤ (evalOrder o p).order.peak_price.getD 0 * (1 - tr / 100)) ∧
    (o.peak_price.getD 0 < p → (evalOrder o p).shouldTrigger = false) := by
  have hmono := trailing_peak_mono o p hk hp
  have htrT : qTruthy (some tr) = true := by simp [qTruthy, htrpos.ne']
  have hpT : qTruthy (some p) = true := by simp [qTruthy, hp.ne']
  have hdrop : p * (1 - tr / 100) < p := by
    have h1 : 1 - tr / 100 < 1 := by linarith
    calc p * (1 - tr / 100) < p * 1 := by exact mul_lt_mul_of_pos_left h1 hp
    _ = p := mul_one p
  have hndrop : ¬ (p ≤ p * (1 - tr / 100)) := not_le.mpr hdrop
  rw [evalOrder_trailing o p hk] at hmono ⊢
  by_cases hu : (!(qTruthy o.peak_price) || decide (o.peak_price.getD 0 < p)) = true
  · simp only [hu, if_true] at hmono ⊢
    refine ⟨by intro _; trivial, by simpa using hmono, ?_, ?_⟩
    · simp [hpT, htr, htrT]
    · intro _
      simp [hpT, htr, htrT, hndrop]
  · have hne : (!(qTruthy o.peak_price) || decide (o.peak_price.getD 0 < p)) = false := by
      cases hb : (!(qTruthy o.peak_price) || decide (o.peak_price.getD 0 < p))
      · rfl
      · exact absurd hb hu
    have hcomp : qTruthy o.peak_price = true ∧ ¬ (o.peak_price.getD 0 < p) := by
      constructor
      · cases hq : qTruthy o.peak_price
        · exact absurd (by simp [hq]) hu
        · rfl
      · intro hlt
        exact hu (by simp [hlt])
    simp only [hne, Bool.false_eq_true, if_false] at hmono ⊢
    refine ⟨fun hlt => absurd hlt hcomp.2, le_refl _, ?_, fun hlt => absurd hlt hcomp.2⟩
    simp [hcomp.1, htr, htrT]

/-- Across any positive price sequence, the trailing peak is monotonically
non-decreasing. -/
lemma trailing_peak_chain (o : Order)
    (hk : o.order_type = OrderType.trailing_stop) :
    ∀ ps : List ℚ, (∀ q ∈ ps, 0 < q) →
      List.Chain' (fun a b => a ≤ b)
        ((ps.scanl (fun x q => (evalOrder x q).order) o).map
          (fun x => x.peak_price.getD 0)) := by
  intro ps
  induction ps generalizing o with
  | nil => intro _; simp
  | cons q rest ih =>
      intro hpos
      have hq : 0 < q := hpos q (by simp)
      have hrest : ∀ x ∈ rest, 0 < x := fun x hx => hpos x (by simp [hx])
      have hk' : (evalOrder o q).order.order_type = OrderType.trailing_stop := by
        rw [(evalOrder_preserves o q).1, hk]
      rw [List.scanl_cons, List.singleton_append, List.map_cons, List.chain'_cons']
      refine ⟨?_, ih (evalOrder o q).order hk' hrest⟩
      intro y hy
      have hhead : (evalOrder o q).order.peak_price.getD 0 = y := by
        cases rest with
        | nil => simpa using hy
        | cons r rs => simpa [List.scanl_cons, List.singleton_append] using hy
      rw [← hhead]
      exact trailing_peak_mono o q hk hq

/-- C2: for an active trailing-stop order with a positive `trail_percent`,
on each positive price tick the peak is overwritten whenever the price
exceeds it (so across any positive price sequence the tracked peak is
monotonically non-decreasing), the peak update precedes the trigger check
of the same tick, the order triggers iff the price is at most
`peak × (1 − trail_percent/100)` computed from that same-tick peak, and a
tick that sets a new high can never itself trigger. -/
theorem trailing_stop_peak_semantics (o : Order) (tr : ℚ)
    (hk : o.order_type = OrderType.trailing_stop)
    (htr : o.trail_percent = some tr) (htrpos : 0 < tr) :
    (∀ p : ℚ, 0 < p →
      (o.peak_price.getD 0 < p → (evalOrder o p).order.peak_price = some p) ∧
      o.peak_price.getD 0 ≤ (evalOrder o p).order.peak_price.getD 0 ∧
      ((evalOrder o p).shouldTrigger = true ↔
        p ≤ (evalOrder o p).order.peak_price.getD 0 * (1 - tr / 100)) ∧
      (o.peak_price.getD 0 < p → (evalOrder o p).shouldTrigger = false)) ∧
    (∀ ps : List ℚ, (∀ q ∈ ps, 0 < q) →
      List.Chain' (fun a b => a ≤ b)
        ((ps.scanl (fun x q => (evalOrder x q).order) o).map
          (fun x => x.peak_price.getD 0))) :=
  ⟨fun p hp => trailing_tick o p tr hk htr htrpos hp,
   fun ps hps => trailing_peak_chain o hk ps hps⟩

/-- C2 witness: the trail-15% order's very first (new-high) tick at price
1 cannot trigger. -/
theorem trailing_stop_peak_semantics_witness :
    (evalOrder exTrailOrder 1).shouldTrigger = false :=
  (((trailing_stop_peak_semantics exTrailOrder 15 rfl rfl (by norm_num)).1 1
      (by norm_num)).2.2.2) (by decide)

/-- Watching a token always results in the inserted set. -/
lemma watchToken_eq_insert (w : Finset ℕ) (t : ℕ) :
    watchToken w t = insert t w := by
  unfold watchToken
  split
  · exact (Finset.insert_eq_self.mpr (by assumption)).symm
  · rfl

/-- Adding an order preserves the watched-iff-referenced invariant and id
uniqueness. -/
lemma watchInv_add (st : EngineState) (o : Order)
    (h : watchInvariant st ∧ idsNodup st) :
    watchInvariant (addOrder st o) ∧ idsNodup (addOrder st o) := by
  obtain ⟨hw, hn⟩ := h
  by_cases hf : (st.orders.find? (fun x => x.id = o.id)).isSome = true
  · simpa [addOrder, hf] using ⟨hw, hn⟩
  · have horders : (addOrder st o).orders = st.orders ++ [o] := by
      simp [addOrder, hf]
    have hwatch : (addOrder st o).watching = insert o.token_address st.watching := by
      simp [addOrder, hf, watchToken_eq_insert]
    have hfresh : ∀ x ∈ st.orders, ¬ (x.id = o.id) := by
      intro x hx
      have := List.find?_eq_none.mp (Option.not_isSome_iff_eq_none.mp hf) x hx
      simpa using this
    constructor
    · intro t
      rw [hwatch, horders]
      simp only [Finset.mem_insert, List.mem_append, List.mem_singleton]
      constructor
      · rintro (rfl | ht)
        · exact ⟨o, Or.inr rfl, rfl⟩
        · obtain ⟨x, hx, hxt⟩ := (hw t).mp ht
          exact ⟨x, Or.inl hx, hxt⟩
      · rintro ⟨x, hx | rfl, hxt⟩
        · exact Or.inr ((hw t).mpr ⟨x, hx, hxt⟩)
        · exact Or.inl hxt.symm
    · unfold idsNodup
      rw [horders, List.map_append, List.nodup_append]
      refine ⟨hn, by simp, fun a ha hb => ?_⟩
      simp only [List.map_cons, List.map_nil, List.mem_singleton] at hb
      obtain ⟨x, hx, hxa⟩ := List.mem_map.mp ha
      exact hfresh x hx (by rw [hxa, hb])

/-- Removing an order preserves the watched-iff-referenced invariant and id
uniqueness. -/
lemma watchInv_remove (st : EngineState) (i : ℕ)
    (h : watchInvariant st ∧ idsNodup st) :
    watchInvariant (removeOrder st i) ∧ idsNodup (removeOrder st i) := by
  obtain ⟨hw, hn⟩ := h
  have hords := removeOrder_orders st i
  have hnod : idsNodup (removeOrder st i) := by
    unfold idsNodup
    rw [hords]
    exact hn.sublist ((List.filter_sublist st.orders).map (fun o => o.id))
  refine ⟨?_, hnod⟩
  cases hf : st.orders.find? (fun x => x.id = i) with
  | none =>
      have hnone : ∀ x ∈ st.orders, ¬ (x.id = i) := by
        intro x hx
        have := List.find?_eq_none.mp hf x hx
        simpa using this
      have hfil : st.orders.filter (fun x => x.id ≠ i) = st.orders := by
        apply List.filter_eq_self.mpr
        intro x hx
        simpa using hnone x hx
      have hwatch : (removeOrder st i).watching = st.watching := by
        unfold removeOrder
        simp [hf]
      intro t
      rw [hwatch, hords, hfil]
      exact hw t
  | some o =>
      have hoin : o ∈ st.orders := List.mem_of_find?_eq_some hf
      have hoid : o.id = i := by simpa using List.find?_some hf
      have huniq : ∀ x ∈ st.orders, x.id = i → x = o := by
        intro x hx hxi
        exact List.inj_on_of_nodup_map hn hx hoin (by rw [hxi, hoid])
      have htrans : ∀ t, t ≠ o.token_address →
          ((∃ x ∈ st.orders.filter (fun x => x.id ≠ i), x.token_address = t) ↔
            ∃ x ∈ st.orders, x.token_address = t) := by
        intro t hne
        constructor
        · rintro ⟨x, hx, hxt⟩
          exact ⟨x, (List.mem_filter.mp hx).1, hxt⟩
        · rintro ⟨x, hx, hxt⟩
          have hxid : x.id ≠ i := by
            intro hxi
            have hxo : x = o := huniq x hx hxi
            rw [hxo] at hxt
            exact hne hxt.symm
          exact ⟨x, List.mem_filter.mpr ⟨hx, by simp [hxid]⟩, hxt⟩
      by_cases hemp : ((st.orders.filter (fun x => x.id ≠ i)).filter
          (fun x => x.token_address = o.token_address)).isEmpty = true
      · have hwatch : (removeOrder st i).watching =
            unwatchToken st.watching o.token_address := by
          unfold removeOrder
          simp only [hf]
          rw [if_pos hemp]
        have hnil : (st.orders.filter (fun x => x.id ≠ i)).filter
            (fun x => x.token_address = o.token_address) = [] :=
          List.isEmpty_iff.mp hemp
        intro t
        rw [hwatch, hords]
        unfold unwatchToken
        by_cases ht : t = o.token_address
        · subst ht
          constructor
          · intro habs
            exact absurd habs (Finset.not_mem_erase _ _)
          · rintro ⟨x, hx, hxt⟩
            have hxmem : x ∈ (st.orders.filter (fun x => x.id ≠ i)).filter
                (fun x => x.token_address = o.token_address) :=
              List.mem_filter.mpr ⟨hx, by simp [hxt]⟩
            rw [hnil] at hxmem
            exact absurd hxmem (List.not_mem_nil x)
        · rw [Finset.mem_erase]
          constructor
          · rintro ⟨-, htw⟩
            exact (htrans t ht).mpr ((hw t).mp htw)
          · intro hex
            exact ⟨ht, (hw t).mpr ((htrans t ht).mp hex)⟩
      · have hwatch : (removeOrder st i).watching = st.watching := by
          unfold removeOrder
          simp only [hf]
          rw [if_neg hemp]
        have hne : (st.orders.filter (fun x => x.id ≠ i)).filter
            (fun x => x.token_address = o.token_address) ≠ [] := by
          intro hc
          exact hemp (List.isEmpty_iff.mpr hc)
        intro t
        rw [hwatch, hords]
        by_cases ht : t = o.token_address
        · subst ht
          constructor
          · intro _
            obtain ⟨x, hxmem⟩ := List.exists_mem_of_ne_nil _ hne
            have h1 := List.mem_filter.mp hxmem
            refine ⟨x, h1.1, ?_⟩
            simpa using h1.2
          · intro _
            exact (hw o.token_address).mpr ⟨o, hoin, rfl⟩
        · constructor
          · intro htw
            exact (htrans t ht).mpr ((hw t).mp htw)
          · intro hex
            exact (hw t).mpr ((htrans t ht).mp hex)

/-- C6 counterexample: the reconciliation pass drops the last order for
token 100 without unwatching it — reaching a state where the instrument
is watched with no active order referencing it, refuting the claimed
invariant over all reachable states. -/
theorem reload_orphan_watch_cex :
    Reachable exReloadState ∧ 100 ∈ exReloadState.watching ∧
    exReloadState.orders = [] ∧ ¬ watchInvariant exReloadState := by
  refine ⟨Reachable.reload (addOrder initState exLimitOrder) []
      (Reachable.add initState exLimitOrder Reachable.init), by decide, by decide, ?_⟩
  intro h
  obtain ⟨o, ho, -⟩ := (h 100).mp (by decide)
  have hnil : exReloadState.orders = [] := by decide
  rw [hnil] at ho
  exact absurd ho (List.not_mem_nil o)

/-- C6 (amended): removing the last cached order referencing an
instrument unwatches it and removing a non-last order leaves the watched
set unchanged; the watched-iff-referenced invariant holds in every state
reachable through `addOrder`/`removeOrder` alone (it is the
reconciliation pass that can orphan a watch). -/
theorem remove_unwatch_semantics :
    (∀ (st : EngineState) (i : ℕ) (o : Order),
      st.orders.find? (fun x => x.id = i) = some o →
      ((st.orders.filter (fun x => x.id ≠ i)).filter
          (fun x => x.token_address = o.token_address) = [] →
        o.token_address ∉ (removeOrder st i).watching) ∧
      ((st.orders.filter (fun x => x.id ≠ i)).filter
          (fun x => x.token_address = o.token_address) ≠ [] →
        (removeOrder st i).watching = st.watching)) ∧
    (∀ st : EngineState, ReachableNoReload st → watchInvariant st) := by
  constructor
  · intro st i o hf
    constructor
    · intro hlast
      have hwatch : (removeOrder st i).watching =
          unwatchToken st.watching o.token_address := by
        unfold removeOrder
        simp only [hf]
        rw [if_pos (List.isEmpty_iff.mpr hlast)]
      rw [hwatch]
      exact Finset.not_mem_erase _ _
    · intro hmore
      have hemp : ¬ ((st.orders.filter (fun x => x.id ≠ i)).filter
          (fun x => x.token_address = o.token_address)).isEmpty = true := by
        intro hc
        exact hmore (List.isEmpty_iff.mp hc)
      unfold removeOrder
      simp only [hf]
      rw [if_neg hemp]
  · intro st h
    have key : watchInvariant st ∧ idsNodup st := by
      induction h with
      | init =>
          constructor
          · intro t
            simp [initState]
          · simp [idsNodup, initState]
      | add st o _ ih => exact watchInv_add st o ih
      | remove st i _ ih => exact watchInv_remove st i ih
    exact key.1

/-- C6 witness: removing the only cached order (id 1, token 100)
unwatches token 100. -/
theorem remove_unwatch_semantics_witness :
    100 ∉ (removeOrder exEngineState 1).watching :=
  (remove_unwatch_semantics.1 exEngineState 1 exLimitOrder rfl).1 rfl

/-- The price-map component of one update step is a point write. -/
lemma pollUpdateStep_fst (now : ℕ) (acc : PricesMap × List PollEvent)
    (e : ℕ × PriceInfo) :
    (pollUpdateStep now acc e).1 =
      setObs acc.1 e.1 ⟨some e.2.price, e.2.mintSymbol, now, none⟩ := rfl

/-- A point write leaves every other key unchanged. -/
lemma setObs_other {ps : PricesMap} {a b : ℕ} {o : Obs} (h : b ≠ a) :
    setObs ps a o b = ps b := by
  simp [setObs, h]

/-- The update phase does not touch a token with no `data` entry. -/
lemma poll_phase1_other (now : ℕ) (addr : ℕ) :
    ∀ (entries : List (ℕ × PriceInfo)) (acc : PricesMap × List PollEvent),
      (∀ e ∈ entries, e.1 ≠ addr) →
      (entries.foldl (pollUpdateStep now) acc).1 addr = acc.1 addr := by
  intro entries
  induction entries with
  | nil => intro acc _; rfl
  | cons e es ih =>
      intro acc h
      rw [List.foldl_cons,
        ih (pollUpdateStep now acc e) (fun x hx => h x (List.mem_cons_of_mem e hx)),
        pollUpdateStep_fst]
      exact setObs_other (Ne.symm (h e (List.mem_cons_self e es)))

/-- The update phase stores the fresh observation for a token with a
`data` entry (entry keys assumed unique, as object keys are). -/
lemma poll_phase1_mem (now : ℕ) :
    ∀ (entries : List (ℕ × PriceInfo)) (acc : PricesMap × List PollEvent)
      (addr : ℕ) (info : PriceInfo),
      (entries.map Prod.fst).Nodup → (addr, info) ∈ entries →
      (entries.foldl (pollUpdateStep now) acc).1 addr =
        some ⟨some info.price, info.mintSymbol, now, none⟩ := by
  intro entries
  induction entries with
  | nil => intro acc addr info _ hmem; exact absurd hmem (List.not_mem_nil _)
  | cons e es ih =>
      intro acc addr info hnd hmem
      rw [List.map_cons] at hnd
      have hnd' := List.nodup_cons.mp hnd
      rw [List.foldl_cons]
      rcases List.mem_cons.mp hmem with heq | hmem'
      · have hrest : ∀ x ∈ es, x.1 ≠ addr := by
          intro x hx hxa
          apply hnd'.1
          have hm : x.1 ∈ es.map Prod.fst := List.mem_map_of_mem Prod.fst hx
          rw [hxa] at hm
          rw [← heq]
          exact hm
        rw [poll_phase1_other now addr es _ hrest, pollUpdateStep_fst, ← heq]
        simp [setObs]
      · exact ih (pollUpdateStep now acc e) addr info hnd'.2 hmem'

/-- The marking phase never overwrites a stored observation. -/
lemma poll_phase2_preserve (now : ℕ) (entries : List (ℕ × PriceInfo))
    (addr : ℕ) (v : Obs) :
    ∀ (batch : List ℕ) (ps : PricesMap), ps addr = some v →
      (batch.foldl (pollMarkStep now entries) ps) addr = some v := by
  intro batch
  induction batch with
  | nil => intro ps h; exact h
  | cons b bs ih =>
      intro ps h
      rw [List.foldl_cons]
      apply ih
      unfold pollMarkStep
      split
      case isTrue hcond =>
        by_cases hb : addr = b
        · rw [← hb, h] at hcond
          simp at hcond
        · exact (setObs_other hb).trans h
      case isFalse => exact h

/-- The marking phase stamps `not_indexed` on a batch token with no
`data` entry and no stored observation. -/
lemma poll_phase2_marks (now : ℕ) (entries : List (ℕ × PriceInfo)) (addr : ℕ)
    (hfind : (entries.find? (fun e => e.1 = addr)).isNone = true) :
    ∀ (batch : List ℕ) (ps : PricesMap), addr ∈ batch → ps addr = none →
      (batch.foldl (pollMarkStep now entries) ps) addr =
        some ⟨none, none, now, some "not_indexed"⟩ := by
  intro batch
  induction batch with
  | nil => intro ps hmem _; exact absurd hmem (List.not_mem_nil _)
  | cons b bs ih =>
      intro ps hmem hnone
      rw [List.foldl_cons]
      by_cases hb : b = addr
      · subst hb
        have hcond : (entries.find? (fun e => e.1 = b)).isNone = true ∧
            (ps b).isNone = true := ⟨hfind, by rw [hnone]; rfl⟩
        have hstep : pollMarkStep now entries ps b =
            setObs ps b ⟨none, none, now, some "not_indexed"⟩ := by
          unfold pollMarkStep
          rw [if_pos hcond]
        rw [hstep]
        apply poll_phase2_preserve
        simp [setObs]
      · rcases List.mem_cons.mp hmem with h | h
        · exact absurd h.symm hb
        · apply ih (pollMarkStep now entries ps b) h
          unfold pollMarkStep
          split
          · exact (setObs_other (Ne.symm hb)).trans hnone
          · exact hnone

/-- C8 counterexample: a batch response that omits token 100 — which has
a stored observation — leaves that observation exactly as it was, with no
`not_indexed` marker (it is left stale), while token 200 updates
normally. -/
theorem stale_observation_not_marked_cex :
    (pollBatch exStalePrices [100, 200] exPollResp 1).1 100 =
      some ⟨some 5, none, 0, none⟩ ∧
    (pollBatch exStalePrices [100, 200] exPollResp 1).1 200 =
      some ⟨some 7, none, 1, none⟩ ∧
    ¬ (pollBatch exStalePrices [100, 200] exPollResp 1).1 100 =
        some ⟨none, none, 1, some "not_indexed"⟩ := by
  refine ⟨rfl, rfl, ?_⟩
  intro h
  rw [show (pollBatch exStalePrices [100, 200] exPollResp 1).1 100 =
      some ⟨some 5, none, 0, none⟩ from rfl] at h
  simp at h

/-- C8 (amended): in a poll batch, a requested token absent from the
response and with no stored observation is marked `not_indexed`; one
absent from the response but already stored keeps its stored (stale)
observation unchanged; tokens present in the response update normally;
and every fetch failure leaves the stored map untouched without raising. -/
theorem poll_marks_only_unseen (ps : PricesMap) (batch : List ℕ)
    (entries : List (ℕ × PriceInfo)) (now : ℕ) :
    (∀ addr, addr ∈ batch → (∀ e ∈ entries, e.1 ≠ addr) → ps addr = none →
      (pollBatch ps batch (.withData entries) now).1 addr =
        some ⟨none, none, now, some "not_indexed"⟩) ∧
    (∀ addr ob, (∀ e ∈ entries, e.1 ≠ addr) → ps addr = some ob →
      (pollBatch ps batch (.withData entries) now).1 addr = some ob) ∧
    (∀ addr info, (entries.map Prod.fst).Nodup → (addr, info) ∈ entries →
      (pollBatch ps batch (.withData entries) now).1 addr =
        some ⟨some info.price, info.mintSymbol, now, none⟩) ∧
    pollBatch ps batch .fetchError now = (ps, []) ∧
    pollBatch ps batch .notOk now = (ps, []) ∧
    pollBatch ps batch .noData now = (ps, []) := by
  refine ⟨?_, ?_, ?_, rfl, rfl, rfl⟩
  · intro addr hmem hnotin hnone
    have hfind : (entries.find? (fun e => e.1 = addr)).isNone = true := by
      rw [List.find?_eq_none.mpr (fun x hx => by simpa using hnotin x hx)]
      rfl
    show (batch.foldl (pollMarkStep now entries)
        (entries.foldl (pollUpdateStep now) (ps, [])).1) addr = _
    apply poll_phase2_marks now entries addr hfind batch _ hmem
    rw [poll_phase1_other now addr entries (ps, []) hnotin]
    exact hnone
  · intro addr ob hnotin hsome
    show (batch.foldl (pollMarkStep now entries)
        (entries.foldl (pollUpdateStep now) (ps, [])).1) addr = _
    apply poll_phase2_preserve
    rw [poll_phase1_other now addr entries (ps, []) hnotin]
    exact hsome
  · intro addr info hnd hmem
    show (batch.foldl (pollMarkStep now entries)
        (entries.foldl (pollUpdateStep now) (ps, [])).1) addr = _
    apply poll_phase2_preserve
    exact poll_phase1_mem now entries (ps, []) addr info hnd hmem

/-- C8 witness: a never-observed token omitted from the response is
marked `not_indexed` while the other token updates. -/
theorem poll_marks_only_unseen_witness :
    (pollBatch (fun _ => none) [100, 200] (.withData [(200, ⟨7, none⟩)]) 1).1 100 =
      some ⟨none, none, 1, some "not_indexed"⟩ :=
  (poll_marks_only_unseen (fun _ => none) [100, 200] [(200, ⟨7, none⟩)] 1).1 100
    (by decide) (by decide) rfl

end SniperFi
